import Mathlib

/-!
Verification of the ACA-Py upgrade command (src/aries_cloudagent/commands/upgrade.py)
and of the Linked-Data proof sign/verify engine described by the specification.

The first part is a shallow embedding of `upgrade.py`: the version-upgrade
configuration, the resolution of the from-version, the sorted per-version
loop, the record re-save step, the update-existing-records step and the
final version-marker write.  Storage and class loading are modelled
explicitly; the observable effects of a call are collected as an ordered
event list.

The second part models the LD-proof engine (sign / verify orchestration,
canonicalization, suites, purposes).  Its code is not part of this tree,
only its test suite is, so the definitions are modelled from the
specification text and are marked as such.
-/

namespace UpgradeCmd

/-- Upgrade-time data-migration callables registered in the source module.
The only one defined in `upgrade.py` is `update_existing_records`
(whose body is a no-op). -/
inductive UpdateFn
  | updateExistingRecords
deriving DecidableEq

/-- One entry of the `upgrade.config` setting: an optional `resave_records`
list of record-class paths, and whether the `update_existing_records` key
is present in the entry. -/
structure UpgradeEntry where
  resaveRecords : Option (List String)
  hasUpdateExisting : Bool
deriving DecidableEq

/-- The settings fields read by `upgrade`: the optional
`upgrade.from_version` setting and the `upgrade.config` mapping from
version strings to entries. -/
structure Settings where
  fromVersion : Option String
  upgradeConfig : List (String × UpgradeEntry)
deriving DecidableEq

/-- Result of `ClassLoader.load_class` on a record path: either
`ClassNotFoundError`, or a loaded class together with whether it is a
`BaseRecord` subclass and how many stored records of it exist. -/
inductive LoadResult
  | notFound
  | found (isBaseRecord : Bool) (recordCount : Nat)
deriving DecidableEq

/-- Observable storage effects performed by `upgrade`, in order:
re-saving all records of a class, invoking the registered
update-existing-records callable (recording the version string the
callable was looked up under, line 141 of the source), and adding or
updating the stored version marker record. -/
inductive UpgradeEvent
  | resaved (recordPath : String) (count : Nat)
  | updateExisting (lookupVersion : String) (fn : UpdateFn)
  | addedVersionRecord (value : String)
  | updatedVersionRecord (value : String)
deriving DecidableEq

/-- Errors of a call to `upgrade`: an `UpgradeError` with its message, or
the uncaught `ValueError` raised by `int()` while sorting when a
configured version key does not parse as vX.Y.Z. -/
inductive UpgradeErr
  | upgradeError (msg : String)
  | malformedVersion
deriving DecidableEq

/-- Outcome of a call to `upgrade`: the effects performed, in order, and
the error if one was raised.  Effects performed before an error are kept. -/
structure UpgradeResult where
  events : List UpgradeEvent
  error : Option UpgradeErr
deriving DecidableEq

/-- Python `str.split` on the dot character, on the character list of the
string. -/
def splitOnDot : List Char → List (List Char)
  | [] => [[]]
  | c :: cs =>
    if c = '.' then [] :: splitOnDot cs
    else
      match splitOnDot cs with
      | [] => [[c]]
      | g :: gs => (c :: g) :: gs

/-- Value of a decimal digit character. -/
def digitVal (c : Char) : Option Nat :=
  if c = '0' then some 0 else if c = '1' then some 1 else if c = '2' then some 2
  else if c = '3' then some 3 else if c = '4' then some 4 else if c = '5' then some 5
  else if c = '6' then some 6 else if c = '7' then some 7 else if c = '8' then some 8
  else if c = '9' then some 9 else none

/-- Accumulating decimal value of a digit sequence (none on a non-digit). -/
def digitsValAux : Nat → List Char → Option Nat
  | acc, [] => some acc
  | acc, c :: cs =>
    match digitVal c with
    | some d => digitsValAux (acc * 10 + d) cs
    | none => none

/-- Decimal value of a nonempty digit sequence. -/
def digitsVal : List Char → Option Nat
  | [] => none
  | cs => digitsValAux 0 cs

/-- Python `int(s)` as applied to version components: an optional minus
sign followed by decimal digits (none on failure, where `int()` raises). -/
def pyIntChars : List Char → Option Int
  | [] => none
  | '-' :: ds => (digitsVal ds).map (fun n => -(n : Int))
  | ds => (digitsVal ds).map (fun n => (n : Int))

/-- Version-key parsing from the sort key of line 102 of the source:
`x.split "."`, then `(int(y[0][1:]), int(y[1]), int(y[2]))`.  Components
beyond the third are ignored by the indexing, fewer than three fail. -/
def parseVersion (s : String) : Option (Int × Int × Int) :=
  match splitOnDot s.data with
  | a :: b :: c :: _ =>
    match pyIntChars (a.drop 1), pyIntChars b, pyIntChars c with
    | some x, some y, some z => some (x, y, z)
    | _, _, _ => none
  | _ => none

/-- Numeric sort key of a version string.  `upgrade` only sorts after every
key has parsed, so the default is never consulted on the paths it takes. -/
def keyOf (s : String) : Int × Int × Int :=
  (parseVersion s).getD (0, 0, 0)

/-- Lexicographic order on (major, minor, patch) triples, as Python
compares the key tuples produced at line 102. -/
def tripLe (a b : Int × Int × Int) : Prop :=
  a.1 < b.1 ∨ (a.1 = b.1 ∧ (a.2.1 < b.2.1 ∨ (a.2.1 = b.2.1 ∧ a.2.2 ≤ b.2.2)))

instance : DecidableRel tripLe := fun a b => by
  unfold tripLe
  exact inferInstance

/-- Version order on strings induced by the parsed numeric keys. -/
def verLe (a b : String) : Prop :=
  tripLe (keyOf a) (keyOf b)

instance : DecidableRel verLe := fun a b => by
  unfold verLe
  exact inferInstance

/-- Strict version order on strings. -/
def verLt (a b : String) : Prop :=
  ¬ tripLe (keyOf b) (keyOf a)

instance : DecidableRel verLt := fun a b => by
  unfold verLt
  exact inferInstance

instance : IsTotal String verLe :=
  ⟨fun a b => by unfold verLe tripLe; omega⟩

instance : IsTrans String verLe :=
  ⟨fun a b c h1 h2 => by unfold verLe tripLe at h1 h2 ⊢; omega⟩

/-- Python `sorted` over the version keys with the parsed-tuple sort key
(lines 100-105 of the source): a stable ascending sort. -/
def sortVersions (keys : List String) : List String :=
  List.insertionSort verLe keys

/-- Python list slicing `l[i:]` with a possibly negative start index. -/
def pySliceFrom {α : Type} (l : List α) (i : Int) : List α :=
  if 0 ≤ i then l.drop i.toNat
  else l.drop (max ((l.length : Int) + i) 0).toNat

/-- The version keys iterated by the per-version loop of `upgrade`
(lines 99-111 of the source): the sorted keys sliced from
`index(from_version) - 1`. -/
def processedVersions (keys : List String) (fromVer : String) : List String :=
  pySliceFrom (sortVersions keys)
    (((sortVersions keys).findIdx (fun w => w == fromVer) : Int) - 1)

/-- The hard-coded `CONFIG_v7_3` mapping of the source: only v0.7.2
registers an update-existing-records callable. -/
def CONFIG_v7_3 : List (String × UpdateFn) :=
  [("v0.7.2", UpdateFn.updateExistingRecords)]

/-- `VersionUpgradeConfig.get_update_existing_func` (lines 44-49): the
callable registered for a given version string, if any. -/
def get_update_existing_func (cfg : List (String × UpdateFn)) (ver : String) :
    Option UpdateFn :=
  (cfg.find? (fun p => p.1 == ver)).map Prod.snd

/-- Dict lookup `settings.get("upgrade.config").get(v)` for a key `v`
drawn from the config's own key list (line 112). -/
def lookupEntry (cfg : List (String × UpgradeEntry)) (ver : String) : UpgradeEntry :=
  ((cfg.find? (fun p => p.1 == ver)).map Prod.snd).getD ⟨none, false⟩

/-- Step 1 of one loop iteration (lines 114-136): load each configured
record path, raise `UpgradeError` on an unknown class or on a class that
is not a `BaseRecord` subclass, and otherwise re-save all records of the
class. -/
def resavePaths (env : String → LoadResult) :
    List String → List UpgradeEvent × Option UpgradeErr
  | [] => ([], none)
  | path :: rest =>
    match env path with
    | LoadResult.notFound =>
      ([], some (UpgradeErr.upgradeError ("Unknown Record type " ++ path)))
    | LoadResult.found isBaseRecord count =>
      if isBaseRecord then
        let r := resavePaths env rest
        (UpgradeEvent.resaved path count :: r.1, r.2)
      else
        ([], some (UpgradeErr.upgradeError "Only BaseRecord can be resaved"))

/-- The re-save part of one loop iteration: nothing when the entry has no
`resave_records` key, otherwise the per-path re-save of lines 116-136. -/
def stepResave (env : String → LoadResult) (entry : UpgradeEntry) :
    List UpgradeEvent × Option UpgradeErr :=
  match entry.resaveRecords with
  | some paths => resavePaths env paths
  | none => ([], none)

/-- One iteration of the per-version loop (lines 112-149): the re-save
step, then the update-existing-records step, which looks up the callable
registered for the resolved from-version (line 141) and raises
`UpgradeError` when none is registered for it. -/
def stepOne (cfg : List (String × UpdateFn)) (env : String → LoadResult)
    (upgradeConfig : List (String × UpgradeEntry)) (fromVer ver : String) :
    List UpgradeEvent × Option UpgradeErr :=
  match stepResave env (lookupEntry upgradeConfig ver) with
  | (evs, some e) => (evs, some e)
  | (evs, none) =>
    if (lookupEntry upgradeConfig ver).hasUpdateExisting then
      match get_update_existing_func cfg fromVer with
      | some fn => (evs ++ [UpgradeEvent.updateExisting fromVer fn], none)
      | none =>
        (evs, some (UpgradeErr.upgradeError
          ("No update_existing_records function specified for " ++ fromVer)))
    else (evs, none)

/-- The loop over the processed versions (lines 109-149), stopping at the
first error and keeping the effects performed before it. -/
def runSteps (cfg : List (String × UpdateFn)) (env : String → LoadResult)
    (upgradeConfig : List (String × UpgradeEntry)) (fromVer : String) :
    List String → List UpgradeEvent × Option UpgradeErr
  | [] => ([], none)
  | v :: vs =>
    match stepOne cfg env upgradeConfig fromVer v with
    | (evs, some e) => (evs, some e)
    | (evs, none) =>
      match runSteps cfg env upgradeConfig fromVer vs with
      | (evs2, err2) => (evs ++ evs2, err2)

/-- Continuation of `upgrade` once the from-version is resolved
(lines 88-163 of the source).  `markerExists` records whether a version
storage record was found.  The membership test of line 94 is dict key
membership; a version key that does not parse makes the `int()` calls of
the sort key raise, before any loop effect. -/
def upgradeFrom (acapyVersion : String) (env : String → LoadResult)
    (upgradeConfig : List (String × UpgradeEntry)) (fromVer : String)
    (markerExists : Bool) : UpgradeResult :=
  if fromVer = "v" ++ acapyVersion then
    ⟨[], some (UpgradeErr.upgradeError "from and to versions are the same")⟩
  else if ¬ (upgradeConfig.map Prod.fst).contains fromVer then
    ⟨[], some (UpgradeErr.upgradeError
      ("No upgrade configuration found for " ++ fromVer))⟩
  else if (upgradeConfig.map Prod.fst).all (fun k => (parseVersion k).isSome) then
    match runSteps CONFIG_v7_3 env upgradeConfig fromVer
        (processedVersions (upgradeConfig.map Prod.fst) fromVer) with
    | (evs, some e) => ⟨evs, some e⟩
    | (evs, none) =>
      ⟨evs ++
        [if markerExists then
           UpgradeEvent.updatedVersionRecord ("v" ++ acapyVersion)
         else UpgradeEvent.addedVersionRecord ("v" ++ acapyVersion)], none⟩
  else ⟨[], some UpgradeErr.malformedVersion⟩

/-- The `upgrade` command (lines 57-166): resolve the from-version from
the stored version record when present (ignoring the
`upgrade.from_version` setting in that case), else from the setting, else
raise `UpgradeError`; then run the per-version steps and finally write
the version marker. -/
def upgrade (acapyVersion : String) (env : String → LoadResult)
    (storedVersion : Option String) (settings : Settings) : UpgradeResult :=
  match storedVersion with
  | some v => upgradeFrom acapyVersion env settings.upgradeConfig v true
  | none =>
    match settings.fromVersion with
    | some v => upgradeFrom acapyVersion env settings.upgradeConfig v false
    | none =>
      ⟨[], some (UpgradeErr.upgradeError
        "ACA-Py version not found in storage and no --from-version specified.")⟩

/-- The from-version `upgrade` resolves (lines 64-87): the stored record's
value when a record exists, else the `upgrade.from_version` setting. -/
def resolvedFrom (storedVersion : Option String) (settings : Settings) :
    Option String :=
  match storedVersion with
  | some v => some v
  | none => settings.fromVersion

/-- Whether an event writes the stored version marker. -/
def isMarkerEvent : UpgradeEvent → Bool
  | UpgradeEvent.addedVersionRecord _ => true
  | UpgradeEvent.updatedVersionRecord _ => true
  | _ => false

/-- Effect of one event on the stored version marker. -/
def applyEvent (st : Option String) : UpgradeEvent → Option String
  | UpgradeEvent.addedVersionRecord v => some v
  | UpgradeEvent.updatedVersionRecord v => some v
  | _ => st

/-- Stored version marker after a list of events. -/
def storedAfter (st : Option String) (events : List UpgradeEvent) :
    Option String :=
  events.foldl applyEvent st

end UpgradeCmd

namespace LdProofs

/-- Modelled from the spec: the LD-proof engine's sign/verify code is not
part of this source tree (only its test suite is), so the engine is
modelled from the specification.  `ProofOptions` are the proof-metadata
fields embedded at signing time and canonicalized together with the
document (spec sections 3, 4.3): the suite type identifier (the JSON
`type` field), the verification method IRI, the proof purpose term and the
optional challenge and domain.  The `created` timestamp is an external
input and is omitted from the model. -/
structure ProofOptions where
  sigType : String
  verificationMethod : String
  proofPurpose : String
  challenge : Option String
  domain : Option String
deriving DecidableEq

/-- Modelled from the spec: the order used to canonicalize fields, by key
and then value, so that canonicalization is deterministic under key
reordering (spec section 4.1). -/
def pairLe (a b : String × String) : Prop :=
  a.1 < b.1 ∨ (a.1 = b.1 ∧ a.2 ≤ b.2)

instance : DecidableRel pairLe := fun a b => by
  unfold pairLe
  exact inferInstance

/-- Modelled from the spec: canonicalization of the non-proof fields, a
pure function deterministic under key reordering (spec sections 3, 4.1):
the field list sorted by key and value. -/
def canonFields (fields : List (String × String)) : List (String × String) :=
  List.insertionSort pairLe fields

/-- Modelled from the spec: the canonical verify-data derived from the
document without its proofs together with the proof options
(spec sections 4.1, 4.2). -/
structure CanonicalForm where
  fields : List (String × String)
  options : ProofOptions
deriving DecidableEq

/-- Modelled from the spec: canonicalize a document's non-proof fields with
given proof options. -/
def canonicalize (fields : List (String × String)) (options : ProofOptions) :
    CanonicalForm :=
  ⟨canonFields fields, options⟩

/-- Modelled from the spec: an idealized signature value, determined by the
canonical form it signs and the signing key (a collision-free signature
scheme; spec section 3's invariant that a signature is only meaningful for
the exact canonical form it was computed over). -/
structure SignatureValue where
  signedForm : CanonicalForm
  signerKey : Nat
deriving DecidableEq

/-- Modelled from the spec: the KeyPair adapter wrapping an opaque key
handle (spec sections 2, 6); verify-only handles carry no private
material, recorded by `canSign`. -/
structure KeyPair where
  keyId : Nat
  canSign : Bool
deriving DecidableEq

/-- Modelled from the spec: the raw signing primitive of the wallet
backend (spec section 6). -/
def KeyPair.signRaw (kp : KeyPair) (form : CanonicalForm) : SignatureValue :=
  ⟨form, kp.keyId⟩

/-- Modelled from the spec: the raw signature check of the wallet backend
(spec section 6): the signature must sign exactly this canonical form
under this key. -/
def KeyPair.verifyRaw (kp : KeyPair) (form : CanonicalForm)
    (sig : SignatureValue) : Bool :=
  decide (sig = ⟨form, kp.keyId⟩)

/-- Modelled from the spec: an embedded proof object: its metadata fields
and its signature value (spec section 3). -/
structure Proof where
  options : ProofOptions
  signatureValue : SignatureValue
deriving DecidableEq

/-- Modelled from the spec: a document: its non-proof top-level fields and
the reserved proof slot holding the proof set (spec section 3). -/
structure Document where
  fields : List (String × String)
  proofs : List Proof
deriving DecidableEq

/-- Modelled from the spec: a signature suite binding a type identifier to
a key pair, with the optional verification method supplied by the caller
(spec sections 4.2, 4.4 step 1). -/
structure Suite where
  signatureType : String
  keyPair : KeyPair
  verificationMethod : Option String
deriving DecidableEq

/-- Modelled from the spec: a proof purpose: its term and the
caller-supplied challenge and domain for this call (spec sections 3,
4.3). -/
structure ProofPurpose where
  term : String
  challenge : Option String
  domain : Option String
deriving DecidableEq

/-- Modelled from the spec: purpose validation (spec section 4.3): the
proof's declared purpose must match the expected term, and its
challenge/domain fields must equal the values supplied by the caller. -/
def ProofPurpose.validate (purpose : ProofPurpose) (proof : Proof) : Bool :=
  decide (proof.options.proofPurpose = purpose.term) &&
  decide (proof.options.challenge = purpose.challenge) &&
  decide (proof.options.domain = purpose.domain)

/-- Modelled from the spec: per-proof failure kinds (spec section 7). -/
inductive ProofErrorKind
  | unsupportedSuite
  | signatureMismatch
  | purposeMismatch
deriving DecidableEq

/-- Modelled from the spec: the per-proof entry of a verification result
(spec section 3). -/
structure PerProofResult where
  verified : Bool
  error : Option ProofErrorKind
deriving DecidableEq

/-- Modelled from the spec: the structured result of `verify`
(spec section 3). -/
structure VerificationResult where
  verified : Bool
  results : List PerProofResult
deriving DecidableEq

/-- Modelled from the spec: the error raised by `sign` when the key pair
cannot sign (spec sections 4.4, 7: sign is fail-fast). -/
inductive SignError
  | keyCannotSign
deriving DecidableEq

/-- Modelled from the spec: the proof options built at signing time
(spec section 4.4 steps 1 and 3): the purpose's fields merged with the
suite type and the verification method, the latter supplied by the caller
or derived from the key pair. -/
def signOptions (suite : Suite) (purpose : ProofPurpose) : ProofOptions :=
  ⟨suite.signatureType,
    suite.verificationMethod.getD (toString suite.keyPair.keyId),
    purpose.term, purpose.challenge, purpose.domain⟩

/-- Modelled from the spec: the sign orchestration (spec section 4.4):
remove any existing proof of the suite's own type, canonicalize the
document with the proof options, delegate signing of the canonical form to
the key pair, and append the new proof to the remaining proof set.
Fail-fast when the key pair cannot sign, leaving the document unchanged. -/
def sign (doc : Document) (suite : Suite) (purpose : ProofPurpose) :
    Except SignError Document :=
  if suite.keyPair.canSign then
    Except.ok
      ⟨doc.fields,
        doc.proofs.filter
            (fun p => !(p.options.sigType == suite.signatureType)) ++
          [⟨signOptions suite purpose,
            suite.keyPair.signRaw
              (canonicalize doc.fields (signOptions suite purpose))⟩]⟩
  else Except.error SignError.keyCannotSign

/-- Modelled from the spec: verification of one extracted proof
(spec section 4.4 steps 2-5): match a suite by type identifier (an
unmatched proof yields a failed per-proof result), re-derive the canonical
verify-data from the document and the proof's own metadata, check the
signature, validate the purpose; the proof verifies only when both
succeed. -/
def verifyProofOne (fields : List (String × String)) (suites : List Suite)
    (purpose : ProofPurpose) (proof : Proof) : PerProofResult :=
  match suites.find? (fun s => s.signatureType == proof.options.sigType) with
  | none => ⟨false, some ProofErrorKind.unsupportedSuite⟩
  | some s =>
    if s.keyPair.verifyRaw (canonicalize fields proof.options)
        proof.signatureValue then
      if purpose.validate proof then ⟨true, none⟩
      else ⟨false, some ProofErrorKind.purposeMismatch⟩
    else ⟨false, some ProofErrorKind.signatureMismatch⟩

/-- Modelled from the spec: the verify orchestration (spec section 4.4
steps 1 and 6): an empty proof set gives verified false with an empty
result list; otherwise every extracted proof is evaluated and the overall
flag is the conjunction of the per-proof outcomes.  The function is total:
cryptographic and purpose failures are data in the result, never
exceptions (spec section 7). -/
def verify (doc : Document) (suites : List Suite) (purpose : ProofPurpose) :
    VerificationResult :=
  match doc.proofs with
  | [] => ⟨false, []⟩
  | p :: ps =>
    ⟨((p :: ps).map (verifyProofOne doc.fields suites purpose)).all
        (fun r => r.verified),
      (p :: ps).map (verifyProofOne doc.fields suites purpose)⟩

/-- Lookup of a top-level field's value in a document's field list. -/
def getField (fields : List (String × String)) (k : String) : Option String :=
  (fields.find? (fun p => p.1 == k)).map Prod.snd

/-- Mutation of the value of an existing top-level field. -/
def setField (fields : List (String × String)) (k v : String) :
    List (String × String) :=
  fields.map (fun p => if p.1 == k then (k, v) else p)

end LdProofs

namespace UpgradeCmd

theorem tripLe_total (a b : Int × Int × Int) : tripLe a b ∨ tripLe b a := by
  unfold tripLe
  omega

theorem tripLe_trans {a b c : Int × Int × Int} (h1 : tripLe a b) (h2 : tripLe b c) :
    tripLe a c := by
  unfold tripLe at h1 h2 ⊢
  omega

theorem tripLe_antisymm {a b : Int × Int × Int} (h1 : tripLe a b) (h2 : tripLe b a) :
    a = b := by
  obtain ⟨a1, a2, a3⟩ := a
  obtain ⟨b1, b2, b3⟩ := b
  unfold tripLe at h1 h2
  simp only [Prod.mk.injEq]
  dsimp only at h1 h2
  omega

theorem tripLe_refl (a : Int × Int × Int) : tripLe a a := by
  unfold tripLe
  omega

theorem sortVersions_perm (keys : List String) :
    List.Perm (sortVersions keys) keys :=
  List.perm_insertionSort verLe keys

theorem sortVersions_sorted (keys : List String) :
    List.Sorted verLe (sortVersions keys) :=
  List.sorted_insertionSort verLe keys

theorem resavePaths_events (env : String → LoadResult) :
    ∀ paths, ∀ e ∈ (resavePaths env paths).1,
      ∃ p c, e = UpgradeEvent.resaved p c ∧ env p = LoadResult.found true c := by
  intro paths
  induction paths with
  | nil =>
    intro e he
    simp [resavePaths] at he
  | cons path rest ih =>
    intro e he
    unfold resavePaths at he
    cases henv : env path with
    | notFound =>
      rw [henv] at he
      simp at he
    | found isBR count =>
      rw [henv] at he
      cases isBR with
      | false => simp at he
      | true =>
        simp only [if_pos] at he
        rcases List.mem_cons.mp he with h | h
        · exact ⟨path, count, h, henv⟩
        · exact ih e h

theorem resavePaths_error_shape (env : String → LoadResult) :
    ∀ paths, (resavePaths env paths).2 = none ∨
      ∃ msg, (resavePaths env paths).2 = some (UpgradeErr.upgradeError msg) := by
  intro paths
  induction paths with
  | nil => exact Or.inl rfl
  | cons path rest ih =>
    unfold resavePaths
    cases henv : env path with
    | notFound => exact Or.inr ⟨"Unknown Record type " ++ path, rfl⟩
    | found isBR count =>
      cases isBR with
      | false => exact Or.inr ⟨"Only BaseRecord can be resaved", rfl⟩
      | true => simpa using ih

theorem resavePaths_bad_error (env : String → LoadResult) (paths : List String)
    (path : String) (hmem : path ∈ paths)
    (hbad : env path = LoadResult.notFound ∨
      ∃ c, env path = LoadResult.found false c) :
    ∃ msg, (resavePaths env paths).2 = some (UpgradeErr.upgradeError msg) := by
  induction paths with
  | nil => cases hmem
  | cons head rest ih =>
    unfold resavePaths
    cases henv : env head with
    | notFound => exact ⟨"Unknown Record type " ++ head, rfl⟩
    | found isBR count =>
      cases isBR with
      | false => exact ⟨"Only BaseRecord can be resaved", rfl⟩
      | true =>
        have hne : path ≠ head := by
          intro hcontra
          subst hcontra
          rcases hbad with h | ⟨c, h⟩ <;> rw [henv] at h <;> cases h
        have hrest : path ∈ rest := by
          rcases List.mem_cons.mp hmem with h | h
          · exact absurd h hne
          · exact h
        simpa using ih hrest

theorem stepResave_events (env : String → LoadResult) (entry : UpgradeEntry) :
    ∀ e ∈ (stepResave env entry).1,
      ∃ p c, e = UpgradeEvent.resaved p c ∧ env p = LoadResult.found true c := by
  intro e he
  unfold stepResave at he
  cases hre : entry.resaveRecords with
  | none =>
    rw [hre] at he
    cases he
  | some paths =>
    rw [hre] at he
    exact resavePaths_events env paths e he

theorem stepResave_error_shape (env : String → LoadResult) (entry : UpgradeEntry) :
    (stepResave env entry).2 = none ∨
      ∃ msg, (stepResave env entry).2 = some (UpgradeErr.upgradeError msg) := by
  unfold stepResave
  cases hre : entry.resaveRecords with
  | none => exact Or.inl rfl
  | some paths => exact resavePaths_error_shape env paths

theorem stepOne_events (cfg : List (String × UpdateFn)) (env : String → LoadResult)
    (uc : List (String × UpgradeEntry)) (fromVer ver : String) :
    ∀ e ∈ (stepOne cfg env uc fromVer ver).1,
      (∃ p c, e = UpgradeEvent.resaved p c ∧ env p = LoadResult.found true c) ∨
      ∃ fn, e = UpgradeEvent.updateExisting fromVer fn ∧
        get_update_existing_func cfg fromVer = some fn := by
  intro e he
  unfold stepOne at he
  rcases hr : stepResave env (lookupEntry uc ver) with ⟨evs, _ | err⟩
  · rw [hr] at he
    dsimp only at he
    have hevs : ∀ x ∈ evs,
        ∃ p c, x = UpgradeEvent.resaved p c ∧ env p = LoadResult.found true c := by
      intro x hx
      refine stepResave_events env (lookupEntry uc ver) x ?_
      rw [hr]
      exact hx
    by_cases hupd : (lookupEntry uc ver).hasUpdateExisting = true
    · rw [if_pos hupd] at he
      rcases hfn : get_update_existing_func cfg fromVer with _ | fn
      · rw [hfn] at he
        exact Or.inl (hevs e he)
      · rw [hfn] at he
        rcases List.mem_append.mp he with h | h
        · exact Or.inl (hevs e h)
        · exact Or.inr ⟨fn, List.mem_singleton.mp h, rfl⟩
    · rw [if_neg hupd] at he
      exact Or.inl (hevs e he)
  · rw [hr] at he
    dsimp only at he
    refine Or.inl (stepResave_events env (lookupEntry uc ver) e ?_)
    rw [hr]
    exact he

theorem runSteps_events (cfg : List (String × UpdateFn)) (env : String → LoadResult)
    (uc : List (String × UpgradeEntry)) (fromVer : String) :
    ∀ vs, ∀ e ∈ (runSteps cfg env uc fromVer vs).1,
      (∃ p c, e = UpgradeEvent.resaved p c ∧ env p = LoadResult.found true c) ∨
      ∃ fn, e = UpgradeEvent.updateExisting fromVer fn ∧
        get_update_existing_func cfg fromVer = some fn := by
  intro vs
  induction vs with
  | nil =>
    intro e he
    cases he
  | cons v rest ih =>
    intro e he
    unfold runSteps at he
    rcases hr : stepOne cfg env uc fromVer v with ⟨evs, _ | err⟩
    · rw [hr] at he
      dsimp only at he
      rcases hrest : runSteps cfg env uc fromVer rest with ⟨evs2, err2⟩
      rw [hrest] at he
      dsimp only at he
      rcases List.mem_append.mp he with h | h
      · refine stepOne_events cfg env uc fromVer v e ?_
        rw [hr]
        exact h
      · refine ih e ?_
        rw [hrest]
        exact h
    · rw [hr] at he
      dsimp only at he
      refine stepOne_events cfg env uc fromVer v e ?_
      rw [hr]
      exact he

theorem storedAfter_of_no_marker (evs : List UpgradeEvent)
    (h : ∀ e ∈ evs, isMarkerEvent e = false) :
    ∀ st, storedAfter st evs = st := by
  induction evs with
  | nil =>
    intro st
    rfl
  | cons e rest ih =>
    intro st
    have he : isMarkerEvent e = false := h e (List.mem_cons_self e rest)
    have happ : applyEvent st e = st := by
      cases e <;> first
        | rfl
        | (exfalso; simp [isMarkerEvent] at he)
    have hrest : ∀ x ∈ rest, isMarkerEvent x = false :=
      fun x hx => h x (List.mem_cons_of_mem e hx)
    show List.foldl applyEvent st (e :: rest) = st
    rw [List.foldl_cons, happ]
    exact ih hrest st

theorem upgradeFrom_events_shape (a : String) (env : String → LoadResult)
    (uc : List (String × UpgradeEntry)) (f : String) (mk : Bool) :
    ∀ e ∈ (upgradeFrom a env uc f mk).events,
      (∃ p c, e = UpgradeEvent.resaved p c ∧ env p = LoadResult.found true c) ∨
      (∃ fn, e = UpgradeEvent.updateExisting f fn ∧
        get_update_existing_func CONFIG_v7_3 f = some fn) ∨
      e = UpgradeEvent.addedVersionRecord ("v" ++ a) ∨
      e = UpgradeEvent.updatedVersionRecord ("v" ++ a) := by
  intro e he
  unfold upgradeFrom at he
  by_cases h1 : f = "v" ++ a
  · rw [if_pos h1] at he
    cases he
  · rw [if_neg h1] at he
    by_cases h2 : ((uc.map Prod.fst).contains f) = true
    · rw [if_neg (not_not_intro h2)] at he
      by_cases h3 : ((uc.map Prod.fst).all fun k => (parseVersion k).isSome) = true
      · rw [if_pos h3] at he
        rcases hr : runSteps CONFIG_v7_3 env uc f
            (processedVersions (uc.map Prod.fst) f) with ⟨evs, _ | err⟩
        · rw [hr] at he
          dsimp only at he
          rcases List.mem_append.mp he with hx | hx
          · rcases runSteps_events CONFIG_v7_3 env uc f _ e
                (by rw [hr]; exact hx) with h | h
            · exact Or.inl h
            · exact Or.inr (Or.inl h)
          · have hx2 := List.mem_singleton.mp hx
            cases mk with
            | false =>
              rw [if_neg (by simp)] at hx2
              exact Or.inr (Or.inr (Or.inl hx2))
            | true =>
              rw [if_pos rfl] at hx2
              exact Or.inr (Or.inr (Or.inr hx2))
        · rw [hr] at he
          dsimp only at he
          rcases runSteps_events CONFIG_v7_3 env uc f _ e
              (by rw [hr]; exact he) with h | h
          · exact Or.inl h
          · exact Or.inr (Or.inl h)
      · rw [if_neg h3] at he
        cases he
    · rw [if_pos h2] at he
      cases he

theorem upgrade_events_shape (a : String) (env : String → LoadResult)
    (stored : Option String) (s : Settings) :
    ∀ e ∈ (upgrade a env stored s).events,
      (∃ p c, e = UpgradeEvent.resaved p c ∧ env p = LoadResult.found true c) ∨
      (∃ f fn, resolvedFrom stored s = some f ∧
        e = UpgradeEvent.updateExisting f fn ∧
        get_update_existing_func CONFIG_v7_3 f = some fn) ∨
      e = UpgradeEvent.addedVersionRecord ("v" ++ a) ∨
      e = UpgradeEvent.updatedVersionRecord ("v" ++ a) := by
  intro e he
  cases stored with
  | some v =>
    rcases upgradeFrom_events_shape a env s.upgradeConfig v true e he
        with h | ⟨fn, h1, h2⟩ | h | h
    · exact Or.inl h
    · exact Or.inr (Or.inl ⟨v, fn, rfl, h1, h2⟩)
    · exact Or.inr (Or.inr (Or.inl h))
    · exact Or.inr (Or.inr (Or.inr h))
  | none =>
    cases hs : s.fromVersion with
    | none =>
      have hu : upgrade a env none s =
          ⟨[], some (UpgradeErr.upgradeError
            "ACA-Py version not found in storage and no --from-version specified.")⟩ := by
        unfold upgrade
        rw [hs]
      rw [hu] at he
      cases he
    | some v =>
      have hu : upgrade a env none s = upgradeFrom a env s.upgradeConfig v false := by
        unfold upgrade
        rw [hs]
      rw [hu] at he
      rcases upgradeFrom_events_shape a env s.upgradeConfig v false e he
          with h | ⟨fn, h1, h2⟩ | h | h
      · exact Or.inl h
      · refine Or.inr (Or.inl ⟨v, fn, ?_, h1, h2⟩)
        show s.fromVersion = some v
        exact hs
      · exact Or.inr (Or.inr (Or.inl h))
      · exact Or.inr (Or.inr (Or.inr h))

theorem upgradeFrom_success (a : String) (env : String → LoadResult)
    (uc : List (String × UpgradeEntry)) (f : String) (mk : Bool)
    (h : (upgradeFrom a env uc f mk).error = none) :
    ∃ pre, (upgradeFrom a env uc f mk).events =
        pre ++ [if mk then UpgradeEvent.updatedVersionRecord ("v" ++ a)
                else UpgradeEvent.addedVersionRecord ("v" ++ a)] ∧
      ∀ e ∈ pre, isMarkerEvent e = false := by
  unfold upgradeFrom at h ⊢
  by_cases h1 : f = "v" ++ a
  · rw [if_pos h1] at h
    cases h
  · rw [if_neg h1] at h ⊢
    by_cases h2 : ((uc.map Prod.fst).contains f) = true
    · rw [if_neg (not_not_intro h2)] at h ⊢
      by_cases h3 : ((uc.map Prod.fst).all fun k => (parseVersion k).isSome) = true
      · rw [if_pos h3] at h ⊢
        rcases hr : runSteps CONFIG_v7_3 env uc f
            (processedVersions (uc.map Prod.fst) f) with ⟨evs, _ | err⟩
        · rw [hr] at h
          dsimp only
          refine ⟨evs, rfl, ?_⟩
          intro e he
          rcases runSteps_events CONFIG_v7_3 env uc f _ e
              (by rw [hr]; exact he) with ⟨p, c, hx, _⟩ | ⟨fn, hx, _⟩ <;>
            rw [hx] <;> rfl
        · rw [hr] at h
          cases h
      · rw [if_neg h3] at h
        cases h
    · rw [if_pos h2] at h
      cases h

/-- C3: after every successful `upgrade` call the stored schema-version
marker equals the running software's version string vX.Y.Z.  It is written
by the single final marker event of the run: a new record is added when no
marker record existed before the call, and the existing record is updated
in place otherwise; no earlier event of the run touches the marker. -/
theorem upgrade_marker (a : String) (env : String → LoadResult)
    (stored : Option String) (s : Settings)
    (h : (upgrade a env stored s).error = none) :
    storedAfter stored (upgrade a env stored s).events = some ("v" ++ a) ∧
    ∃ pre, (upgrade a env stored s).events =
        pre ++ [match stored with
                | some _ => UpgradeEvent.updatedVersionRecord ("v" ++ a)
                | none => UpgradeEvent.addedVersionRecord ("v" ++ a)] ∧
      ∀ e ∈ pre, isMarkerEvent e = false := by
  cases stored with
  | some v =>
    have h2 : (upgradeFrom a env s.upgradeConfig v true).error = none := h
    obtain ⟨pre, hev, hmk⟩ := upgradeFrom_success a env s.upgradeConfig v true h2
    have hev2 : (upgrade a env (some v) s).events =
        pre ++ [UpgradeEvent.updatedVersionRecord ("v" ++ a)] := hev
    constructor
    · rw [hev2]
      show List.foldl applyEvent (some v) _ = _
      rw [List.foldl_append]
      have : List.foldl applyEvent (some v) pre = some v :=
        storedAfter_of_no_marker pre hmk (some v)
      rw [this]
      rfl
    · exact ⟨pre, hev2, hmk⟩
  | none =>
    cases hs : s.fromVersion with
    | none =>
      have hu : upgrade a env none s =
          ⟨[], some (UpgradeErr.upgradeError
            "ACA-Py version not found in storage and no --from-version specified.")⟩ := by
        unfold upgrade
        rw [hs]
      rw [hu] at h
      cases h
    | some v =>
      have hu : upgrade a env none s = upgradeFrom a env s.upgradeConfig v false := by
        unfold upgrade
        rw [hs]
      rw [hu] at h
      obtain ⟨pre, hev, hmk⟩ := upgradeFrom_success a env s.upgradeConfig v false h
      have hev2 : (upgrade a env none s).events =
          pre ++ [UpgradeEvent.addedVersionRecord ("v" ++ a)] := by
        rw [hu]
        exact hev
      constructor
      · rw [hev2]
        show List.foldl applyEvent none _ = _
        rw [List.foldl_append]
        have : List.foldl applyEvent none pre = none :=
          storedAfter_of_no_marker pre hmk none
        rw [this]
        rfl
      · exact ⟨pre, hev2, hmk⟩

/-- C8: when a version record exists in storage its stored value is used
as the from-version and the `upgrade.from_version` setting is ignored (the
call's outcome does not depend on it, and equals the continuation at the
stored value); when no record exists and no setting is supplied, `upgrade`
raises `UpgradeError` having performed no migration step. -/
theorem upgrade_from_resolution (a : String) (env : String → LoadResult)
    (cfg : List (String × UpgradeEntry)) (v : String) (o o' : Option String) :
    upgrade a env (some v) ⟨o, cfg⟩ = upgrade a env (some v) ⟨o', cfg⟩ ∧
    upgrade a env (some v) ⟨o, cfg⟩ = upgradeFrom a env cfg v true ∧
    upgrade a env none ⟨none, cfg⟩ =
      ⟨[], some (UpgradeErr.upgradeError
        "ACA-Py version not found in storage and no --from-version specified.")⟩ :=
  ⟨rfl, rfl, rfl⟩

/-- C9: when the resolved from-version equals the current software version,
or has no entry among the `upgrade.config` keys, `upgrade` raises
`UpgradeError` before any record is re-saved and before the version marker
is changed: the event list is empty and the stored marker is unchanged. -/
theorem upgrade_precheck_errors (a : String) (env : String → LoadResult)
    (stored : Option String) (s : Settings) (f : String)
    (hf : resolvedFrom stored s = some f)
    (h : f = "v" ++ a ∨ (s.upgradeConfig.map Prod.fst).contains f = false) :
    (upgrade a env stored s).events = [] ∧
    (∃ msg, (upgrade a env stored s).error = some (UpgradeErr.upgradeError msg)) ∧
    storedAfter stored (upgrade a env stored s).events = stored := by
  have hfrom : ∀ mk, (upgradeFrom a env s.upgradeConfig f mk).events = [] ∧
      ∃ msg, (upgradeFrom a env s.upgradeConfig f mk).error =
        some (UpgradeErr.upgradeError msg) := by
    intro mk
    unfold upgradeFrom
    by_cases h1 : f = "v" ++ a
    · rw [if_pos h1]
      exact ⟨rfl, "from and to versions are the same", rfl⟩
    · rw [if_neg h1]
      have h2 : ¬ ((s.upgradeConfig.map Prod.fst).contains f = true) := by
        rcases h with h | h
        · exact absurd h h1
        · rw [h]
          simp
      rw [if_pos h2]
      exact ⟨rfl, "No upgrade configuration found for " ++ f, rfl⟩
  cases stored with
  | some v =>
    have hv : v = f := by
      have : some v = some f := hf
      injection this
    subst hv
    have hres := hfrom true
    have he : (upgrade a env (some v) s).events = [] := hres.1
    refine ⟨he, hres.2, ?_⟩
    rw [he]
    rfl
  | none =>
    have hs : s.fromVersion = some f := hf
    have hu : upgrade a env none s = upgradeFrom a env s.upgradeConfig f false := by
      unfold upgrade
      rw [hs]
    have hres := hfrom false
    have he : (upgrade a env none s).events = [] := by
      rw [hu]
      exact hres.1
    refine ⟨he, ?_, ?_⟩
    · rw [hu]
      exact hres.2
    · rw [he]
      rfl

/-- C10: during the re-save step, a configured record path whose class
cannot be loaded, or loads to a class that is not a `BaseRecord` subclass,
makes the step raise `UpgradeError` with no record of that path re-saved;
and every re-save performed anywhere in an `upgrade` call went through a
loadable `BaseRecord` subclass. -/
theorem resave_guard (env : String → LoadResult) (paths : List String)
    (path : String) (a : String) (stored : Option String) (s : Settings)
    (hmem : path ∈ paths)
    (hbad : env path = LoadResult.notFound ∨
      ∃ c, env path = LoadResult.found false c) :
    ((∃ msg, (resavePaths env paths).2 = some (UpgradeErr.upgradeError msg)) ∧
      ∀ c, UpgradeEvent.resaved path c ∉ (resavePaths env paths).1) ∧
    ∀ p c, UpgradeEvent.resaved p c ∈ (upgrade a env stored s).events →
      env p = LoadResult.found true c := by
  have hthrough : ∀ p c, UpgradeEvent.resaved p c ∈ (upgrade a env stored s).events →
      env p = LoadResult.found true c := by
    intro p c hin
    rcases upgrade_events_shape a env stored s _ hin
        with ⟨p', c', heq, henv⟩ | ⟨f, fn, _, heq, _⟩ | heq | heq
    · injection heq with e1 e2
      subst e1
      subst e2
      exact henv
    · cases heq
    · cases heq
    · cases heq
  refine ⟨⟨resavePaths_bad_error env paths path hmem hbad, ?_⟩, hthrough⟩
  intro c hc
  rcases resavePaths_events env paths _ hc with ⟨p', c', heq, henv⟩
  injection heq with e1 e2
  subst e1
  subst e2
  rcases hbad with hb | ⟨c0, hb⟩ <;> rw [hb] at henv <;> simp at henv

/-- C2 (amended): every update-existing-records invocation performed by
`upgrade` invokes the callable registered for the resolved from-version:
the lookup key is the from-version at every processed step, not the step's
own version; and a step whose entry requests the update raises
`UpgradeError` exactly when no callable is registered for the
from-version. -/
theorem update_existing_lookup (a : String) (env : String → LoadResult)
    (stored : Option String) (s : Settings) (f : String)
    (cfg : List (String × UpdateFn)) (uc : List (String × UpgradeEntry))
    (ver : String)
    (hf : resolvedFrom stored s = some f) :
    (∀ v fn, UpgradeEvent.updateExisting v fn ∈ (upgrade a env stored s).events →
      v = f ∧ get_update_existing_func CONFIG_v7_3 f = some fn) ∧
    ((lookupEntry uc ver).hasUpdateExisting = true →
      get_update_existing_func cfg f = none →
      ∃ msg, (stepOne cfg env uc f ver).2 = some (UpgradeErr.upgradeError msg)) := by
  constructor
  · intro v fn hin
    rcases upgrade_events_shape a env stored s _ hin
        with ⟨p, c, heq, _⟩ | ⟨f', fn', hf', heq, hfn⟩ | heq | heq
    · cases heq
    · injection heq with e1 e2
      subst e1
      subst e2
      rw [hf] at hf'
      injection hf' with e3
      subst e3
      exact ⟨rfl, hfn⟩
    · cases heq
    · cases heq
  · intro hupd hnone
    unfold stepOne
    rcases hr : stepResave env (lookupEntry uc ver) with ⟨evs, _ | err⟩
    · dsimp only
      rw [if_pos hupd, hnone]
      exact ⟨"No update_existing_records function specified for " ++ f, rfl⟩
    · rcases stepResave_error_shape env (lookupEntry uc ver) with hsh | ⟨msg, hsh⟩
      · rw [hr] at hsh
        cases hsh
      · rw [hr] at hsh
        dsimp only at hsh
        injection hsh with e1
        subst e1
        exact ⟨msg, rfl⟩

/-- C2 counterexample: with from-version v0.7.2 and a configured step for
v0.7.1 requesting the update of existing records, `upgrade` succeeds and
invokes the callable looked up under v0.7.2, although no callable is
registered for the step's own version v0.7.1 (under the claim the call
would have to raise `UpgradeError`, or invoke a v0.7.1 callable). -/
theorem update_lookup_counterexample :
    (upgrade "0.8.0" (fun _ => LoadResult.notFound) (some "v0.7.2")
        ⟨none, [("v0.7.1", ⟨none, true⟩), ("v0.7.2", ⟨none, false⟩)]⟩) =
      ⟨[UpgradeEvent.updateExisting "v0.7.2" UpdateFn.updateExistingRecords,
        UpgradeEvent.updatedVersionRecord "v0.8.0"], none⟩ ∧
    "v0.7.1" ∈ processedVersions ["v0.7.1", "v0.7.2"] "v0.7.2" ∧
    (lookupEntry [("v0.7.1", ⟨none, true⟩), ("v0.7.2", ⟨none, false⟩)]
      "v0.7.1").hasUpdateExisting = true ∧
    get_update_existing_func CONFIG_v7_3 "v0.7.1" = none := by
  refine ⟨by decide, by decide, by decide, by decide⟩

/-- C1 counterexample: with from-version v0.7.2 and configured versions
v0.7.1 and v0.7.2, the per-version loop of `upgrade` also executes the
step of v0.7.1, a version strictly before the from-version: its configured
record path recA is re-saved, so the steps executed are not exactly those
of the configured versions at or after the from-version. -/
theorem processed_versions_counterexample :
    UpgradeEvent.resaved "recA" 2 ∈
      (upgrade "0.8.0"
        (fun p => if p == "recA" then LoadResult.found true 2
                  else LoadResult.found true 3)
        (some "v0.7.2")
        ⟨none, [("v0.7.1", ⟨some ["recA"], false⟩),
                ("v0.7.2", ⟨some ["recB"], false⟩)]⟩).events ∧
    processedVersions ["v0.7.1", "v0.7.2"] "v0.7.2" = ["v0.7.1", "v0.7.2"] ∧
    verLt "v0.7.1" "v0.7.2" ∧
    (lookupEntry [("v0.7.1", ⟨some ["recA"], false⟩),
      ("v0.7.2", ⟨some ["recB"], false⟩)] "v0.7.1").resaveRecords =
      some ["recA"] := by
  refine ⟨by decide, by decide, by decide, by decide⟩

theorem sorted_slice_covers (S : List String) (f : String) (k : Nat)
    (hsorted : List.Sorted verLe S)
    (hinjS : ∀ x ∈ S, ∀ y ∈ S, keyOf x = keyOf y → x = y)
    (hlt : k + 1 < S.length)
    (hSidx : S[k + 1] = f)
    (hbefore : ∀ j (hj : j < S.length), j < k + 1 → S.get ⟨j, hj⟩ ≠ f) :
    (∀ w ∈ S, verLe f w → w ∈ S.drop k) ∧
    ∃ u ∈ S.drop k, verLt u f := by
  have hfS : f ∈ S := by
    rw [← hSidx]
    exact List.getElem_mem hlt
  have hlen : 1 < (S.drop k).length := by
    rw [List.length_drop]
    omega
  have h0 : 0 < (S.drop k).length := by omega
  have hgd := @List.getElem_drop _ S k 1 hlen
  have hfd : f ∈ S.drop k := by
    rw [← hSidx, ← hgd]
    exact List.getElem_mem hlen
  constructor
  · intro w hw hfw
    have hsplit : w ∈ S.take k ++ S.drop k := by
      rw [List.take_append_drop]
      exact hw
    rcases List.mem_append.mp hsplit with htk | hdp
    · exfalso
      have hwf : verLe w f := hsorted.rel_of_mem_take_of_mem_drop htk hfd
      have hkey : keyOf w = keyOf f := tripLe_antisymm hwf hfw
      have hwf2 : w = f := hinjS w hw f hfS hkey
      subst hwf2
      obtain ⟨j, hj, hjf⟩ := List.getElem_of_mem htk
      have hjS : j < S.length := by
        have h2 := hj
        rw [List.length_take] at h2
        omega
      have hjk : j < k + 1 := by
        have h2 := hj
        rw [List.length_take] at h2
        omega
      rw [List.getElem_take] at hjf
      exact hbefore j hjS hjk hjf
    · exact hdp
  · have hg0 := @List.getElem_drop _ S k 0 h0
    refine ⟨(S.drop k).get ⟨0, h0⟩, List.getElem_mem h0, ?_⟩
    have hle : verLe ((S.drop k).get ⟨0, h0⟩) f := by
      show verLe ((S.drop k)[0]) f
      rw [hg0, ← hSidx]
      have hrel : verLe (S.get ⟨k + 0, by omega⟩) (S.get ⟨k + 1, hlt⟩) :=
        hsorted.rel_get_of_lt (by simp [Fin.lt_def])
      simpa using hrel
    have hne : (S.drop k).get ⟨0, h0⟩ ≠ f := by
      show (S.drop k)[0] ≠ f
      rw [hg0]
      exact hbefore (k + 0) (by omega) (by omega)
    intro hcon
    have hkey : keyOf ((S.drop k).get ⟨0, h0⟩) = keyOf f :=
      tripLe_antisymm hle hcon
    have hmem0 : (S.drop k).get ⟨0, h0⟩ ∈ S :=
      List.drop_subset _ _ (List.getElem_mem h0)
    exact hne (hinjS _ hmem0 f hfS hkey)

/-- C1 (amended): when the configured version keys all parse as vX.Y.Z with
pairwise distinct numeric values, the resolved from-version f is among them
and at least one configured version is numerically before f, the
per-version loop of `upgrade` iterates over an ascending list of configured
versions that contains every configured version at or after f and also a
configured version strictly before f: the slice starts one position before
f in the ascending ordering, not at f. -/
theorem processed_versions_amended (keys : List String) (f : String)
    (hparse : ∀ k ∈ keys, (parseVersion k).isSome = true)
    (hinj : (keys.map keyOf).Nodup)
    (hmem : f ∈ keys)
    (hpred : ∃ u ∈ keys, verLt u f) :
    List.Sorted verLe (processedVersions keys f) ∧
    (∀ w ∈ processedVersions keys f, w ∈ keys) ∧
    (∀ w ∈ keys, verLe f w → w ∈ processedVersions keys f) ∧
    ∃ u ∈ processedVersions keys f, verLt u f := by
  have hperm := sortVersions_perm keys
  have hsorted := sortVersions_sorted keys
  have hfS : f ∈ sortVersions keys := hperm.mem_iff.mpr hmem
  have hex : ∃ x ∈ sortVersions keys, ((x == f) = true) := ⟨f, hfS, by simp⟩
  have hlt : (sortVersions keys).findIdx (fun w => w == f) <
      (sortVersions keys).length := List.findIdx_lt_length_of_exists hex
  have hSidx : (sortVersions keys)[(sortVersions keys).findIdx
      (fun w => w == f)] = f := by
    have hx := @List.findIdx_getElem _ (fun w => w == f) (sortVersions keys) hlt
    simpa using hx
  have hinjS : ∀ x ∈ sortVersions keys, ∀ y ∈ sortVersions keys,
      keyOf x = keyOf y → x = y := by
    intro x hx y hy hxy
    have hnodupS : ((sortVersions keys).map keyOf).Nodup :=
      ((hperm.map keyOf).nodup_iff).mpr hinj
    exact List.inj_on_of_nodup_map hnodupS hx hy hxy
  have hbefore : ∀ j (hj : j < (sortVersions keys).length),
      j < (sortVersions keys).findIdx (fun w => w == f) →
      (sortVersions keys).get ⟨j, hj⟩ ≠ f := by
    intro j hj hjidx hcon
    have hx := List.not_of_lt_findIdx hjidx
    rw [List.get_eq_getElem] at hcon
    rw [hcon] at hx
    simp at hx
  have hge : ∀ j (hj : j < (sortVersions keys).length),
      (sortVersions keys).findIdx (fun w => w == f) ≤ j →
      verLe f ((sortVersions keys)[j]) := by
    intro j hj hij
    rcases Nat.eq_or_lt_of_le hij with heq | hlt2
    · have hx : (sortVersions keys)[j] = f := by
        subst heq
        exact hSidx
      rw [hx]
      show tripLe (keyOf f) (keyOf f)
      exact tripLe_refl (keyOf f)
    · have hrel : verLe ((sortVersions keys).get ⟨_, hlt⟩)
          ((sortVersions keys).get ⟨j, hj⟩) :=
        hsorted.rel_get_of_lt (by simpa [Fin.lt_def] using hlt2)
      rw [List.get_eq_getElem, List.get_eq_getElem, hSidx] at hrel
      exact hrel
  have hone : 1 ≤ (sortVersions keys).findIdx (fun w => w == f) := by
    by_contra hc
    push_neg at hc
    obtain ⟨u, huk, hult⟩ := hpred
    have huS : u ∈ sortVersions keys := hperm.mem_iff.mpr huk
    obtain ⟨j, hj, hu⟩ := List.getElem_of_mem huS
    have hx := hge j hj (by omega)
    rw [hu] at hx
    exact hult hx
  obtain ⟨k, hk⟩ : ∃ k, (sortVersions keys).findIdx (fun w => w == f) = k + 1 :=
    ⟨(sortVersions keys).findIdx (fun w => w == f) - 1, by omega⟩
  have hlt2 : k + 1 < (sortVersions keys).length := by omega
  have ho : (sortVersions keys)[k + 1]? = some f := by
    rw [← hk, List.getElem?_eq_getElem hlt, hSidx]
  have hSk : (sortVersions keys)[k + 1] = f := by
    have hx := List.getElem?_eq_getElem hlt2
    rw [hx] at ho
    injection ho
  have hbefore2 : ∀ j (hj : j < (sortVersions keys).length), j < k + 1 →
      (sortVersions keys).get ⟨j, hj⟩ ≠ f :=
    fun j hj hjk => hbefore j hj (by omega)
  have hproc : processedVersions keys f = (sortVersions keys).drop k := by
    unfold processedVersions pySliceFrom
    rw [hk]
    rw [if_pos (by omega : (0 : Int) ≤ ((k + 1 : Nat) : Int) - 1)]
    congr 1
    omega
  obtain ⟨hcov, hex2⟩ := sorted_slice_covers (sortVersions keys) f k hsorted
    hinjS hlt2 hSk hbefore2
  refine ⟨?_, ?_, ?_, ?_⟩
  · rw [hproc]
    exact List.Pairwise.sublist (List.drop_sublist _ _) hsorted
  · intro w hw
    rw [hproc] at hw
    exact hperm.mem_iff.mp (List.drop_subset _ _ hw)
  · intro w hw hfw
    rw [hproc]
    exact hcov w (hperm.mem_iff.mpr hw) hfw
  · rw [hproc]
    exact hex2

/-- C1 amended witness: concrete run of the amended statement. -/
theorem processed_versions_amended_witness :
    List.Sorted verLe (processedVersions ["v0.7.1", "v0.7.2", "v0.8.0"] "v0.7.2") ∧
    (∀ w ∈ processedVersions ["v0.7.1", "v0.7.2", "v0.8.0"] "v0.7.2",
      w ∈ ["v0.7.1", "v0.7.2", "v0.8.0"]) ∧
    (∀ w ∈ ["v0.7.1", "v0.7.2", "v0.8.0"], verLe "v0.7.2" w →
      w ∈ processedVersions ["v0.7.1", "v0.7.2", "v0.8.0"] "v0.7.2") ∧
    ∃ u ∈ processedVersions ["v0.7.1", "v0.7.2", "v0.8.0"] "v0.7.2",
      verLt u "v0.7.2" :=
  processed_versions_amended ["v0.7.1", "v0.7.2", "v0.8.0"] "v0.7.2"
    (by decide) (by decide) (by decide) (by decide)

/-- C2 amended witness: concrete run of the amended statement. -/
theorem update_existing_lookup_witness :
    (∀ v fn, UpgradeEvent.updateExisting v fn ∈
        (upgrade "0.9.0" (fun _ => LoadResult.notFound) (some "v0.7.1")
          ⟨none, []⟩).events →
      v = "v0.7.1" ∧ get_update_existing_func CONFIG_v7_3 "v0.7.1" = some fn) ∧
    ((lookupEntry [("v0.7.1", ⟨none, true⟩)] "v0.7.1").hasUpdateExisting = true →
      get_update_existing_func CONFIG_v7_3 "v0.7.1" = none →
      ∃ msg, (stepOne CONFIG_v7_3 (fun _ => LoadResult.notFound)
          [("v0.7.1", ⟨none, true⟩)] "v0.7.1" "v0.7.1").2 =
        some (UpgradeErr.upgradeError msg)) :=
  update_existing_lookup "0.9.0" (fun _ => LoadResult.notFound) (some "v0.7.1")
    ⟨none, []⟩ "v0.7.1" CONFIG_v7_3 [("v0.7.1", ⟨none, true⟩)] "v0.7.1" rfl

/-- C3 witness: a successful concrete run updating the stored marker. -/
theorem upgrade_marker_witness :
    storedAfter (some "v0.7.2")
        (upgrade "0.8.0" (fun _ => LoadResult.notFound) (some "v0.7.2")
          ⟨none, [("v0.7.2", ⟨none, false⟩)]⟩).events = some ("v" ++ "0.8.0") ∧
    ∃ pre, (upgrade "0.8.0" (fun _ => LoadResult.notFound) (some "v0.7.2")
          ⟨none, [("v0.7.2", ⟨none, false⟩)]⟩).events =
        pre ++ [UpgradeEvent.updatedVersionRecord ("v" ++ "0.8.0")] ∧
      ∀ e ∈ pre, isMarkerEvent e = false :=
  upgrade_marker "0.8.0" (fun _ => LoadResult.notFound) (some "v0.7.2")
    ⟨none, [("v0.7.2", ⟨none, false⟩)]⟩ (by decide)

/-- C9 witness: a concrete call with from-version equal to the current
version errors out with no effects. -/
theorem upgrade_precheck_errors_witness :
    (upgrade "0.7.2" (fun _ => LoadResult.notFound) (some "v0.7.2")
        ⟨none, [("v0.7.2", ⟨none, false⟩)]⟩).events = [] ∧
    (∃ msg, (upgrade "0.7.2" (fun _ => LoadResult.notFound) (some "v0.7.2")
        ⟨none, [("v0.7.2", ⟨none, false⟩)]⟩).error =
      some (UpgradeErr.upgradeError msg)) ∧
    storedAfter (some "v0.7.2")
        (upgrade "0.7.2" (fun _ => LoadResult.notFound) (some "v0.7.2")
          ⟨none, [("v0.7.2", ⟨none, false⟩)]⟩).events = some "v0.7.2" :=
  upgrade_precheck_errors "0.7.2" (fun _ => LoadResult.notFound) (some "v0.7.2")
    ⟨none, [("v0.7.2", ⟨none, false⟩)]⟩ "v0.7.2" rfl (Or.inl (by decide))

/-- C10 witness: a concrete unknown record path aborts its re-save step,
and a concrete run only re-saves loadable BaseRecord classes. -/
theorem resave_guard_witness :
    ((∃ msg, (resavePaths (fun _ => LoadResult.notFound) ["recX"]).2 =
        some (UpgradeErr.upgradeError msg)) ∧
      ∀ c, UpgradeEvent.resaved "recX" c ∉
        (resavePaths (fun _ => LoadResult.notFound) ["recX"]).1) ∧
    ∀ p c, UpgradeEvent.resaved p c ∈
        (upgrade "0.8.0" (fun _ => LoadResult.notFound) none ⟨none, []⟩).events →
      (fun _ => LoadResult.notFound) p = LoadResult.found true c :=
  resave_guard (fun _ => LoadResult.notFound) ["recX"] "recX" "0.8.0" none
    ⟨none, []⟩ (by decide) (Or.inl rfl)

end UpgradeCmd

namespace LdProofs

theorem canonFields_perm (fields : List (String × String)) :
    List.Perm (canonFields fields) fields :=
  List.perm_insertionSort pairLe fields

theorem getField_some_mem (fields : List (String × String)) (k v : String)
    (h : getField fields k = some v) : (k, v) ∈ fields := by
  unfold getField at h
  rcases hf : fields.find? (fun p => p.1 == k) with _ | q
  · rw [hf] at h
    cases h
  · rw [hf] at h
    have hq := List.find?_some hf
    have hmem := List.mem_of_find?_eq_some hf
    rcases q with ⟨q1, q2⟩
    have hv : q2 = v := by
      simpa using h
    have hk2 : q1 = k := by
      simpa using hq
    subst hv
    subst hk2
    exact hmem

theorem mem_setField (fields : List (String × String)) (k v : String)
    (p : String × String) (h : p ∈ setField fields k v) :
    p = (k, v) ∨ (p ∈ fields ∧ p.1 ≠ k) := by
  unfold setField at h
  rcases List.mem_map.mp h with ⟨q, hq, hmap⟩
  by_cases hk : (q.1 == k) = true
  · rw [if_pos hk] at hmap
    exact Or.inl hmap.symm
  · rw [if_neg hk] at hmap
    rw [← hmap]
    refine Or.inr ⟨hq, ?_⟩
    simpa using hk

theorem canonFields_setField_ne (fields : List (String × String))
    (k v v' : String) (hget : getField fields k = some v) (hne : v' ≠ v) :
    canonFields (setField fields k v') ≠ canonFields fields := by
  intro heq
  have h1 : List.Perm (setField fields k v') (canonFields (setField fields k v')) :=
    (canonFields_perm _).symm
  rw [heq] at h1
  have hperm : List.Perm (setField fields k v') fields :=
    h1.trans (canonFields_perm fields)
  have hmemf : (k, v) ∈ fields := getField_some_mem fields k v hget
  have hmemset : (k, v) ∈ setField fields k v' := hperm.mem_iff.mpr hmemf
  rcases mem_setField fields k v' (k, v) hmemset with heq2 | ⟨_, hk⟩
  · have hv : v = v' := by
      simpa using heq2
    exact hne hv.symm
  · exact hk rfl

theorem canonFields_append_ne (fields : List (String × String))
    (kv : String × String) :
    canonFields (fields ++ [kv]) ≠ canonFields fields := by
  intro heq
  have h1 := (canonFields_perm (fields ++ [kv])).length_eq
  have h2 := (canonFields_perm fields).length_eq
  rw [heq, h2] at h1
  simp at h1

theorem verify_false_of_mem (doc : Document) (suites : List Suite)
    (purpose : ProofPurpose) (p : Proof) (hp : p ∈ doc.proofs)
    (hfail : (verifyProofOne doc.fields suites purpose p).verified = false) :
    (verify doc suites purpose).verified = false := by
  unfold verify
  rcases hd : doc.proofs with _ | ⟨q, qs⟩
  · rw [hd] at hp
  · dsimp only
    refine List.all_eq_false.mpr
      ⟨verifyProofOne doc.fields suites purpose p, ?_, ?_⟩
    · refine List.mem_map.mpr ⟨p, ?_, rfl⟩
      rw [← hd]
      exact hp
    · simpa using hfail

theorem verifyProofOne_sig_mismatch (fields : List (String × String))
    (suites : List Suite) (purpose : ProofPurpose) (p : Proof)
    (hneq : p.signatureValue.signedForm ≠ canonicalize fields p.options) :
    (verifyProofOne fields suites purpose p).verified = false := by
  unfold verifyProofOne
  rcases hf : suites.find? (fun s => s.signatureType == p.options.sigType)
      with _ | s
  · rw [hf]
  · have hfalse : s.keyPair.verifyRaw (canonicalize fields p.options)
        p.signatureValue = false := by
      unfold KeyPair.verifyRaw
      exact decide_eq_false
        (fun heq => hneq (congrArg SignatureValue.signedForm heq))
    rw [hf]
    dsimp only
    rw [hfalse]
    rfl

theorem verify_singleton (fields : List (String × String))
    (suites : List Suite) (purpose : ProofPurpose) (p : Proof) :
    (verify ⟨fields, [p]⟩ suites purpose).verified =
      (verifyProofOne fields suites purpose p).verified := by
  unfold verify
  simp

theorem verifyProofOne_signed (fields : List (String × String))
    (suite : Suite) (purpose : ProofPurpose) :
    (verifyProofOne fields [suite] purpose
      ⟨signOptions suite purpose,
        suite.keyPair.signRaw
          (canonicalize fields (signOptions suite purpose))⟩).verified
      = true := by
  simp [verifyProofOne, signOptions, ProofPurpose.validate, KeyPair.verifyRaw,
    KeyPair.signRaw]

/-- C4 (amended): the sign/verify round trip verifies for every document
all of whose existing proofs carry the signing suite's own type (they are
replaced at signing; in particular any document without proofs), for every
suite with a signing-capable key pair and every purpose: verifying the
freshly signed document against the same suite and purpose yields
verified true. -/
theorem round_trip (doc : Document) (suite : Suite) (purpose : ProofPurpose)
    (sd : Document)
    (hall : ∀ p ∈ doc.proofs, p.options.sigType = suite.signatureType)
    (hs : sign doc suite purpose = Except.ok sd) :
    (verify sd [suite] purpose).verified = true := by
  unfold sign at hs
  by_cases hcan : suite.keyPair.canSign = true
  · rw [if_pos hcan] at hs
    injection hs with hs
    have hfilter : doc.proofs.filter
        (fun p => !(p.options.sigType == suite.signatureType)) = [] := by
      rw [List.filter_eq_nil_iff]
      intro p hp
      simp [hall p hp]
    rw [hfilter, List.nil_append] at hs
    rw [← hs]
    rw [verify_singleton]
    exact verifyProofOne_signed doc.fields suite purpose
  · rw [if_neg hcan] at hs
    cases hs

/-- C4 counterexample: a document already carrying a proof of a different
suite type.  Signing keeps that foreign proof (only same-type proofs are
replaced), and verifying against the signing suite alone finds no suite
matching it, which forces the overall result to false: the round trip
does not hold for all documents. -/
theorem round_trip_counterexample :
    (sign
        ⟨[("email", "a@example.com")],
          [⟨⟨"OtherSuite", "vm2", "assertionMethod", none, none⟩,
            ⟨⟨[], ⟨"OtherSuite", "vm2", "assertionMethod", none, none⟩⟩, 7⟩⟩]⟩
        ⟨"Ed25519Signature2020", ⟨1, true⟩, some "did:key:z1"⟩
        ⟨"assertionMethod", none, none⟩).toOption.map
      (fun sd => (verify sd
        [⟨"Ed25519Signature2020", ⟨1, true⟩, some "did:key:z1"⟩]
        ⟨"assertionMethod", none, none⟩).verified) = some false := by
  decide

/-- C4 witness: concrete round trip through the amended statement. -/
theorem round_trip_witness :
    (verify
      ⟨[("email", "a@example.com")],
        [⟨⟨"Ed25519Signature2020", "did:key:z1", "assertionMethod", none, none⟩,
          ⟨⟨[("email", "a@example.com")],
              ⟨"Ed25519Signature2020", "did:key:z1", "assertionMethod", none,
                none⟩⟩, 1⟩⟩]⟩
      [⟨"Ed25519Signature2020", ⟨1, true⟩, some "did:key:z1"⟩]
      ⟨"assertionMethod", none, none⟩).verified = true :=
  round_trip ⟨[("email", "a@example.com")], []⟩
    ⟨"Ed25519Signature2020", ⟨1, true⟩, some "did:key:z1"⟩
    ⟨"assertionMethod", none, none⟩ _ (by decide) rfl

/-- C5: mutating the value of a field outside the proof block of a freshly
signed document (every non-proof field participates in canonicalization)
and verifying against the original suite yields verified false. -/
theorem tamper_detection (doc : Document) (suite : Suite)
    (purpose : ProofPurpose) (sd : Document) (k v v' : String)
    (hs : sign doc suite purpose = Except.ok sd)
    (hget : getField doc.fields k = some v)
    (hne : v' ≠ v) :
    (verify ⟨setField sd.fields k v', sd.proofs⟩ [suite] purpose).verified
      = false := by
  unfold sign at hs
  by_cases hcan : suite.keyPair.canSign = true
  · rw [if_pos hcan] at hs
    injection hs with hs
    rw [← hs]
    refine verify_false_of_mem _ [suite] purpose
      ⟨signOptions suite purpose,
        suite.keyPair.signRaw
          (canonicalize doc.fields (signOptions suite purpose))⟩ ?_ ?_
    · exact List.mem_append_right _ (List.mem_singleton.mpr rfl)
    · refine verifyProofOne_sig_mismatch _ [suite] purpose _ ?_
      intro hcc
      have h1 : canonFields doc.fields =
          canonFields (setField doc.fields k v') := by
        have := congrArg CanonicalForm.fields hcc
        simpa [canonicalize] using this
      exact canonFields_setField_ne doc.fields k v v' hget hne h1.symm
  · rw [if_neg hcan] at hs
    cases hs

/-- C5 witness: concrete mutation of a signed field flips verified to
false. -/
theorem tamper_detection_witness :
    (verify
      ⟨setField [("email", "a@example.com")] "email" "b@example.com",
        [⟨⟨"Ed25519Signature2020", "did:key:z1", "assertionMethod", none, none⟩,
          ⟨⟨[("email", "a@example.com")],
              ⟨"Ed25519Signature2020", "did:key:z1", "assertionMethod", none,
                none⟩⟩, 1⟩⟩]⟩
      [⟨"Ed25519Signature2020", ⟨1, true⟩, some "did:key:z1"⟩]
      ⟨"assertionMethod", none, none⟩).verified = false :=
  tamper_detection ⟨[("email", "a@example.com")], []⟩
    ⟨"Ed25519Signature2020", ⟨1, true⟩, some "did:key:z1"⟩
    ⟨"assertionMethod", none, none⟩ _ "email" "a@example.com" "b@example.com"
    rfl rfl (by decide)

/-- C6: adding a previously absent top-level field to a freshly signed
document and verifying against the original suite yields verified false
(the canonical form gains an entry, so the signature no longer matches). -/
theorem unsigned_field_detection (doc : Document) (suite : Suite)
    (purpose : ProofPurpose) (sd : Document) (k v : String)
    (hs : sign doc suite purpose = Except.ok sd)
    (habs : getField sd.fields k = none) :
    (verify ⟨sd.fields ++ [(k, v)], sd.proofs⟩ [suite] purpose).verified
      = false := by
  unfold sign at hs
  by_cases hcan : suite.keyPair.canSign = true
  · rw [if_pos hcan] at hs
    injection hs with hs
    rw [← hs]
    refine verify_false_of_mem _ [suite] purpose
      ⟨signOptions suite purpose,
        suite.keyPair.signRaw
          (canonicalize doc.fields (signOptions suite purpose))⟩ ?_ ?_
    · exact List.mem_append_right _ (List.mem_singleton.mpr rfl)
    · refine verifyProofOne_sig_mismatch _ [suite] purpose _ ?_
      intro hcc
      have h1 : canonFields doc.fields =
          canonFields (doc.fields ++ [(k, v)]) := by
        have := congrArg CanonicalForm.fields hcc
        simpa [canonicalize] using this
      exact canonFields_append_ne doc.fields (k, v) h1.symm
  · rw [if_neg hcan] at hs
    cases hs

/-- C6 witness: concrete unsigned claim added to a signed document flips
verified to false. -/
theorem unsigned_field_detection_witness :
    (verify
      ⟨[("email", "a@example.com")] ++ [("unsigned_claim", "oops")],
        [⟨⟨"Ed25519Signature2020", "did:key:z1", "assertionMethod", none, none⟩,
          ⟨⟨[("email", "a@example.com")],
              ⟨"Ed25519Signature2020", "did:key:z1", "assertionMethod", none,
                none⟩⟩, 1⟩⟩]⟩
      [⟨"Ed25519Signature2020", ⟨1, true⟩, some "did:key:z1"⟩]
      ⟨"assertionMethod", none, none⟩).verified = false :=
  unsigned_field_detection ⟨[("email", "a@example.com")], []⟩
    ⟨"Ed25519Signature2020", ⟨1, true⟩, some "did:key:z1"⟩
    ⟨"assertionMethod", none, none⟩ _ "unsigned_claim" "oops" rfl rfl

/-- C7: `verify` is a total function returning a structured
VerificationResult (it cannot raise for cryptographic or purpose
failures); for every unsigned document (no proofs) or tampered document
(some proof's signed canonical form no longer matches the document) the
result has verified false, with one per-proof entry for each proof. -/
theorem verify_total_on_failure (doc : Document) (suites : List Suite)
    (purpose : ProofPurpose)
    (h : doc.proofs = [] ∨ ∃ p ∈ doc.proofs,
      p.signatureValue.signedForm ≠ canonicalize doc.fields p.options) :
    (verify doc suites purpose).verified = false ∧
    (verify doc suites purpose).results.length = doc.proofs.length := by
  have hlen : (verify doc suites purpose).results.length =
      doc.proofs.length := by
    unfold verify
    rcases hd : doc.proofs with _ | ⟨q, qs⟩
    · rfl
    · simp
  rcases h with hempty | ⟨p, hp, hneq⟩
  · constructor
    · unfold verify
      rw [hempty]
    · exact hlen
  · exact ⟨verify_false_of_mem doc suites purpose p hp
      (verifyProofOne_sig_mismatch doc.fields suites purpose p hneq), hlen⟩

/-- C7 witness: an unsigned concrete document verifies to false with an
empty result list. -/
theorem verify_total_on_failure_witness :
    (verify ⟨[("a", "b")], []⟩ [] ⟨"assertionMethod", none, none⟩).verified
      = false ∧
    (verify ⟨[("a", "b")], []⟩ []
        ⟨"assertionMethod", none, none⟩).results.length =
      (⟨[("a", "b")], []⟩ : Document).proofs.length :=
  verify_total_on_failure ⟨[("a", "b")], []⟩ [] ⟨"assertionMethod", none, none⟩
    (Or.inl rfl)

end LdProofs
